import Mathlib

/-!
# Verification of the `micro debug stats` handler

A shallow embedding of the stats handler (`debug/stats/handler`): the
registry scan that maintains the cached instance directory, the scrape
tick that fans out per-node calls and publishes a snapshot batch, the
ring buffer of historical batches, and the `Read`/`Write`/`Stream`
service methods.  External collaborators (the registry, the RPC client,
wall clocks) are passed in as explicit oracles.
-/

/-- A registry node (`registry.Node`): id, address and string metadata. -/
structure Node where
  id : String
  address : String
  metadata : List (String × String)
deriving DecidableEq, Repr

/-- A registry service entry (`registry.Service`): name, version, nodes. -/
structure RegService where
  name : String
  version : String
  nodes : List Node
deriving DecidableEq, Repr

/-- `stats.Node` inside a snapshot: id and address only. -/
structure SNode where
  id : String
  address : String
deriving DecidableEq, Repr

/-- `stats.Service` inside a snapshot or a read filter. -/
structure SService where
  name : String
  version : String
  node : Option SNode
deriving DecidableEq, Repr

/-- `debug.StatsResponse`: what a remote node reports for `Debug.Stats`.
All proto fields are unsigned 64-bit integers, embedded as `Nat`. -/
structure StatsResponse where
  started : Nat
  uptime : Nat
  memory : Nat
  threads : Nat
  gc : Nat
  requests : Nat
  errors : Nat
deriving DecidableEq, Repr

/-- `stats.Snapshot`: one node's statistics at one capture time.
`started` is a signed 64-bit field (`int64(rsp.Started)` in the code),
`timestamp` an unsigned one (`uint64(time.Now().Unix())`). -/
structure Snapshot where
  service : SService
  started : Int
  uptime : Nat
  memory : Nat
  threads : Nat
  gc : Nat
  requests : Nat
  errors : Nat
  timestamp : Nat
deriving DecidableEq, Repr

/-- Go conversion `int64(u)` of an unsigned 64-bit value: two's-complement
reinterpretation modulo 2^64. -/
def toInt64 (n : Nat) : Int :=
  if n % 2 ^ 64 < 2 ^ 63 then ((n % 2 ^ 64 : Nat) : Int)
  else ((n % 2 ^ 64 : Nat) : Int) - 2 ^ 64

/-- Go conversion `uint64(i)` of a signed value: reduction modulo 2^64. -/
def toUInt64 (i : Int) : Nat :=
  (i % 2 ^ 64).toNat

/-- Modelled from the spec: the `ring.Buffer` of
`go-micro/util/ring` is not part of this repository's sources.  §4.3 of
the design: a fixed-capacity circular buffer of snapshot batches, `Put`
inserts the newest batch overwriting the oldest slot once full, `Get n`
returns up to `n` most recent batches in chronological order (oldest of
the returned window first).  `vals` is kept oldest-first. -/
structure RingBuffer where
  size : Nat
  vals : List (List Snapshot)
deriving DecidableEq, Repr

/-- Modelled from the spec: `ring.New(i)` constructs an empty buffer of
fixed capacity `i`. -/
def ringNew (size : Nat) : RingBuffer :=
  { size := size, vals := [] }

/-- Modelled from the spec: `Put` inserts the newest batch, overwriting
the oldest slot once the ring is full. -/
def RingBuffer.Put (r : RingBuffer) (b : List Snapshot) : RingBuffer :=
  let vals := r.vals ++ [b]
  if r.size < vals.length then { r with vals := vals.drop (vals.length - r.size) }
  else { r with vals := vals }

/-- Modelled from the spec: `Get n` returns up to `n` most recent
batches, oldest of the returned window first. -/
def RingBuffer.Get (r : RingBuffer) (n : Nat) : List (List Snapshot) :=
  r.vals.drop (r.vals.length - n)

/-- The handler state (`Stats`): current snapshots, historical snapshot
ring, and the cached service directory. -/
structure StatsState where
  snapshots : List Snapshot
  historicalSnapshots : RingBuffer
  cached : List RegService
deriving DecidableEq, Repr

/-- The registry as seen by the handler: `ListServices` and
`GetService`, either of which may fail. -/
structure RegistryView where
  listServices : Except String (List RegService)
  getService : String → Except String (List RegService)

/-- The key used by `scan`'s merge map: the Go code writes
`serviceMap[service.Name+service.Version] = service`. -/
def svcKey (svc : RegService) : String :=
  svc.name ++ svc.version

/-- Go map assignment `m[svcKey svc] = svc` on an association list:
replaces the entry at the key if present, otherwise appends. -/
def minsert (m : List (String × RegService)) (svc : RegService) : List (String × RegService) :=
  if m.any (fun p => p.1 == svcKey svc) then
    m.map (fun p => if p.1 == svcKey svc then (svcKey svc, svc) else p)
  else m ++ [(svcKey svc, svc)]

/-- One iteration of `scan`'s loop body for one listed service: services
with nodes are stored directly; for node-less services a `GetService`
lookup is issued, its failure skips the service, its success stores
every returned version. -/
def scanStep (getService : String → Except String (List RegService))
    (m : List (String × RegService)) (svc : RegService) : List (String × RegService) :=
  if 0 < svc.nodes.length then minsert m svc
  else
    match getService svc.name with
    | .error _ => m
    | .ok newServices => newServices.foldl minsert m

/-- The merge map built by `scan` over the listed services. -/
def buildServiceMap (getService : String → Except String (List RegService))
    (services : List RegService) : List (String × RegService) :=
  services.foldl (scanStep getService) []

/-- `Stats.scan`: refreshes the cached directory from the registry.
On `ListServices` failure the state is untouched and the error
returned; otherwise the merge map is built, flattened, and swapped in
as the new `cached` list. -/
def Stats.scan (reg : RegistryView) (s : StatsState) : StatsState × Option String :=
  match reg.listServices with
  | .error e => (s, some e)
  | .ok services =>
      let serviceMap := buildServiceMap reg.getService services
      let serviceList := serviceMap.map (fun p => p.2)
      ({ s with cached := serviceList }, none)

/-- `New`: builds the initial state with an empty ring of the configured
window size and runs one synchronous `scan`; fails if that scan fails. -/
def Stats.New (reg : RegistryView) (windowSize : Nat) : Except String StatsState :=
  let s : StatsState :=
    { snapshots := [], historicalSnapshots := ringNew windowSize, cached := [] }
  match Stats.scan reg s with
  | (s1, none) => .ok s1
  | (_, some e) => .error e

/-- Go map lookup `metadata["protocol"]`: missing keys yield `""`. -/
def metaLookup (m : List (String × String)) (k : String) : String :=
  match m.find? (fun p => p.1 == k) with
  | some p => p.2
  | none => ""

/-- The node-instance pairs a scrape tick targets: services with nodes
(node-less ones are skipped) and, within them, nodes whose
metadata-declared protocol equals the client's. -/
def eligibleNodes (protocol : String) (services : List RegService) :
    List (RegService × Node) :=
  services.flatMap fun svc =>
    if svc.nodes.length = 0 then []
    else svc.nodes.filterMap fun node =>
      if metaLookup node.metadata "protocol" == protocol then some (svc, node) else none

/-- The snapshot built from one successful `Debug.Stats` call: identity
from the registry entry, statistics from the response, `started` as the
signed reinterpretation of the remote-reported value, `timestamp` as
the unsigned reinterpretation of the poller-side clock reading `ts`. -/
def mkSnapshot (svc : RegService) (node : Node) (rsp : StatsResponse) (ts : Int) : Snapshot :=
  { service :=
      { name := svc.name
        version := svc.version
        node := some { id := node.id, address := node.address } }
    started := toInt64 rsp.started
    uptime := rsp.uptime
    memory := rsp.memory
    threads := rsp.threads
    gc := rsp.gc
    requests := rsp.requests
    errors := rsp.errors
    timestamp := toUInt64 ts }

/-- The `stats.Service` identity a snapshot records for a given
registry entry and node. -/
def wireIdentity (svc : RegService) (node : Node) : SService :=
  { name := svc.name
    version := svc.version
    node := some { id := node.id, address := node.address } }

/-- `Stats.scrape`: one tick.  `call` is the RPC oracle (`none` is a
failed call — timeout, transport or remote error), `clock` the
poller-side wall clock read after each successful call.  Failed calls
contribute nothing; the accumulated batch replaces the current
snapshots and is inserted into the history ring. -/
def Stats.scrape (call : RegService → Node → Option StatsResponse)
    (clock : RegService → Node → Int) (protocol : String) (s : StatsState) : StatsState :=
  let next := (eligibleNodes protocol s.cached).filterMap fun p =>
    (call p.1 p.2).map fun rsp => mkSnapshot p.1 p.2 rsp (clock p.1 p.2)
  { s with snapshots := next, historicalSnapshots := s.historicalSnapshots.Put next }

/-- A read filter (`req.Service`): name and version, either may be empty. -/
structure ReadRequest where
  service : Option SService
  past : Bool
deriving DecidableEq, Repr

/-- go-micro `errors.Error` as produced by `errors.BadRequest`:
id, HTTP-style code, detail and status text. -/
structure MError where
  id : String
  code : Nat
  detail : String
  status : String
deriving DecidableEq, Repr

/-- Modelled from the spec: go-micro's `errors.BadRequest(id, detail)`
constructor is an external collaborator; it yields a client-visible
bad-request-class error, code 400. -/
def badRequest (id detail : String) : MError :=
  { id := id, code := 400, detail := detail, status := "Bad Request" }

/-- The code's per-field filter: an empty pattern matches everything,
otherwise the field must equal the pattern. -/
def filterPass (a b : String) : Bool :=
  if b.length = 0 then true else a == b

/-- `Stats.Read`: selects the source (history concatenation when
`past`, else current snapshots), then filters by the requested service
identity when one is given.  Returns the (unchanged) state, the
response snapshots and the error (always `none`). -/
def Stats.Read (s : StatsState) (req : ReadRequest) :
    StatsState × List Snapshot × Option MError :=
  let allSnapshots : List Snapshot :=
    if req.past then
      (s.historicalSnapshots.Get 3600).foldl (fun acc entry => acc ++ entry) []
    else s.snapshots
  match req.service with
  | none => (s, allSnapshots, none)
  | some svc =>
      let filteredSnapshots := allSnapshots.filter fun snap =>
        filterPass snap.service.name svc.name && filterPass snap.service.version svc.version
      (s, filteredSnapshots, none)

/-- `stats.WriteRequest` carries no fields used by the handler. -/
structure WriteRequest where
deriving DecidableEq, Repr

/-- `stats.StreamRequest` carries no fields used by the handler. -/
structure StreamRequest where
deriving DecidableEq, Repr

/-- `Stats.Write`: unconditionally a bad-request "not implemented"
error; the state is untouched. -/
def Stats.Write (s : StatsState) (_req : WriteRequest) : StatsState × MError :=
  (s, badRequest "go.micro.debug.stats" "not implemented")

/-- `Stats.Stream`: unconditionally a bad-request "not implemented"
error; the state is untouched. -/
def Stats.Stream (s : StatsState) (_req : StreamRequest) : StatsState × MError :=
  (s, badRequest "go.micro.debug.stats" "not implemented")

/-- The oracles of one scrape tick: the RPC outcomes, the poller clock
and the client protocol. -/
structure TickEnv where
  call : RegService → Node → Option StatsResponse
  clock : RegService → Node → Int
  protocol : String

/-- A sequence of scrape ticks applied in order. -/
def runTicks (ticks : List TickEnv) (s : StatsState) : StatsState :=
  ticks.foldl (fun st t => Stats.scrape t.call t.clock t.protocol st) s

/-- The spec's description of `Read`'s source selection (§4.4): Current
State when history is not wanted, otherwise the concatenation of all
batches returned by `Get 3600`. -/
def specSource (s : StatsState) (wantHistory : Bool) : List Snapshot :=
  if wantHistory then (s.historicalSnapshots.Get 3600).foldl (fun acc entry => acc ++ entry) []
  else s.snapshots

/-- The spec's description of `Read`'s filtering (§4.4), applied to a
source: no identity keeps everything; otherwise a snapshot is kept iff
each non-empty filter field is matched exactly. -/
def specFilter (service : Option SService) (src : List Snapshot) : List Snapshot :=
  match service with
  | none => src
  | some f =>
      src.filter fun snap =>
        (decide (f.name = "") || snap.service.name == f.name) &&
        (decide (f.version = "") || snap.service.version == f.version)

/-! ## Concrete sample data used by witnesses and counterexamples -/

/-- A sample node speaking the `mucp` protocol. -/
def nodeW : Node :=
  { id := "node-1", address := "10.0.0.1:8080", metadata := [("protocol", "mucp")] }

/-- A service whose concatenated key is `"abc"`. -/
def svcP : RegService := { name := "a", version := "bc", nodes := [nodeW] }

/-- A distinct service whose concatenated key is also `"abc"`. -/
def svcQ : RegService := { name := "ab", version := "c", nodes := [nodeW] }

/-- A freshly initialised handler state. -/
def st0 : StatsState :=
  { snapshots := [], historicalSnapshots := ringNew 1, cached := [] }

/-- A registry listing `svcP` and `svcQ`, with `GetService` failing. -/
def regC1 : RegistryView :=
  { listServices := .ok [svcP, svcQ], getService := fun _ => .error "unreachable" }

/-- A registry whose `ListServices` fails. -/
def regFail : RegistryView :=
  { listServices := .error "registry unreachable", getService := fun _ => .error "down" }

/-- A snapshot of service `"X"`. -/
def snapX : Snapshot :=
  { service := { name := "X", version := "v1", node := none },
    started := 0, uptime := 0, memory := 0, threads := 0, gc := 0,
    requests := 0, errors := 0, timestamp := 0 }

/-- A state whose current batch holds only `snapX`. -/
def stX : StatsState :=
  { snapshots := [snapX], historicalSnapshots := ringNew 1, cached := [] }

/-- The read filter asking for service `"X"`, any version. -/
def fltX : SService := { name := "X", version := "", node := none }

/-- A request for the current snapshots of service `"X"`. -/
def reqX : ReadRequest := { service := some fltX, past := false }

/-- A response reporting a remote start time of 5. -/
def rspW : StatsResponse :=
  { started := 5, uptime := 11, memory := 22, threads := 3, gc := 4,
    requests := 6, errors := 1 }

/-- A service with the single `mucp` node `nodeW`. -/
def svcM : RegService := { name := "svcA", version := "v1", nodes := [nodeW] }

/-- A state whose cached directory holds `svcM`. -/
def stM : StatsState :=
  { snapshots := [], historicalSnapshots := ringNew 2, cached := [svcM] }

/-- An RPC oracle for which every call fails. -/
def callFail : RegService → Node → Option StatsResponse := fun _ _ => none

/-- An RPC oracle for which every call returns `rspW`. -/
def callOk : RegService → Node → Option StatsResponse := fun _ _ => some rspW

/-- A poller clock stuck at 100 (distinct from the remote start time). -/
def clockW : RegService → Node → Int := fun _ _ => 100

/-- The keys of the merge map. -/
def mapKeys (m : List (String × RegService)) : List String :=
  m.map Prod.fst

/-- The service list a `GetService` result contributes: its payload on
success, nothing on failure. -/
def okServices (r : Except String (List RegService)) : List RegService :=
  match r with
  | .ok ns => ns
  | .error _ => []

/-- The ways `scan` can put key `j` into its merge map: a listed
service with nodes whose key is `j`, or a node-less listed service
whose `GetService` lookup succeeds with an entry of key `j`. -/
def scanKeyProduced (gs : String → Except String (List RegService))
    (l : List RegService) (j : String) : Prop :=
  ∃ t ∈ l, (0 < t.nodes.length ∧ svcKey t = j) ∨
    (t.nodes.length = 0 ∧ ∃ u ∈ okServices (gs t.name), svcKey u = j)

/-- A node-less service whose lookup will fail. -/
def svcGhost : RegService := { name := "ghost", version := "v1", nodes := [] }

/-- A registry listing `svcGhost` (node-less) and `svcM` (with nodes),
with every `GetService` lookup failing. -/
def regGhost : RegistryView :=
  { listServices := .ok [svcGhost, svcM], getService := fun _ => .error "down" }

/-! ## Basic lemmas -/

lemma string_length_eq_zero_iff (b : String) : b.length = 0 ↔ b = "" := by
  constructor
  · intro h
    cases b with
    | mk data =>
        have hd : data = [] := List.length_eq_zero.mp h
        simp [hd]
  · intro h
    subst h
    rfl

lemma filterPass_iff (a b : String) : filterPass a b = true ↔ (b = "" ∨ a = b) := by
  unfold filterPass
  by_cases h : b.length = 0
  · simp [h, (string_length_eq_zero_iff b).mp h]
  · have hb : ¬ b = "" := fun hc => h ((string_length_eq_zero_iff b).mpr hc)
    simp [h, hb]

/-! ## C2: registry failure leaves the state untouched -/

/-- C2: if `ListServices` fails, `scan` leaves the whole handler state
unchanged (the cached directory byte for byte) and returns the error. -/
theorem scan_list_error_preserves_state (reg : RegistryView) (s : StatsState) (e : String)
    (h : reg.listServices = .error e) : Stats.scan reg s = (s, some e) := by
  simp [Stats.scan, h]

theorem scan_list_error_preserves_state_witness :
    Stats.scan regFail st0 = (st0, some "registry unreachable") :=
  scan_list_error_preserves_state regFail st0 "registry unreachable" rfl

/-! ## C7: Write and Stream are unimplemented and touch nothing -/

/-- C7: `Write` and `Stream` both return immediately with the
bad-request-class "not implemented" error (code 400) and leave the
handler state — current snapshots, history, cached directory —
completely unchanged. -/
theorem write_stream_not_implemented (s : StatsState) (wreq : WriteRequest)
    (sreq : StreamRequest) :
    Stats.Write s wreq = (s, badRequest "go.micro.debug.stats" "not implemented") ∧
    Stats.Stream s sreq = (s, badRequest "go.micro.debug.stats" "not implemented") ∧
    (Stats.Write s wreq).2.code = 400 ∧ (Stats.Stream s sreq).2.code = 400 ∧
    (Stats.Write s wreq).2.detail = "not implemented" ∧
    (Stats.Stream s sreq).2.detail = "not implemented" := by
  refine ⟨rfl, rfl, rfl, rfl, rfl, rfl⟩

/-! ## C8: Read is deterministic, state-preserving and error-free -/

/-- C8: `Read` never touches the state, always returns a `none` error
(an empty match set is an ordinary empty result), and calling it twice
on the same state with the same request — no intervening scrape tick or
directory refresh — yields identical results. -/
theorem read_idempotent_no_error (s : StatsState) (req : ReadRequest) :
    (Stats.Read s req).1 = s ∧ (Stats.Read s req).2.2 = none ∧
    Stats.Read (Stats.Read s req).1 req = Stats.Read s req := by
  refine ⟨?_, ?_, ?_⟩ <;>
    cases hsvc : req.service <;> simp [Stats.Read, hsvc]

/-! ## C4: source selection by the `past` flag -/

lemma filterPass_eq_spec (a b : String) :
    filterPass a b = (decide (b = "") || a == b) := by
  by_cases hb : b = ""
  · subst hb
    simp [filterPass]
  · have hlen : ¬ b.length = 0 := fun h => hb ((string_length_eq_zero_iff b).mp h)
    simp [filterPass, hlen, hb]

/-- C4: `Read` is exactly the spec's filter applied to the spec's
source: the Current State batch when `past` is false, and the
concatenation (in the returned order) of all batches obtained from the
history ring's `Get 3600` when `past` is true. -/
theorem read_source_selection (s : StatsState) (req : ReadRequest) :
    (Stats.Read s req).2.1 = specFilter req.service (specSource s req.past) ∧
    specSource s false = s.snapshots ∧
    specSource s true =
      (s.historicalSnapshots.Get 3600).foldl (fun acc entry => acc ++ entry) [] := by
  refine ⟨?_, rfl, rfl⟩
  cases hsvc : req.service with
  | none => simp [Stats.Read, specFilter, specSource, hsvc]
  | some f =>
      simp only [Stats.Read, specFilter, specSource, hsvc]
      cases req.past <;>
        · apply List.filter_congr
          intro snap _
          rw [filterPass_eq_spec, filterPass_eq_spec]

/-! ## C3: filtering semantics -/

/-- C3: with no service identity in the request every source snapshot
is returned unchanged; with an identity, a snapshot is kept iff its
name matches the requested name and its version matches the requested
version, an empty filter field matching everything. -/
theorem read_filter_semantics (s : StatsState) (req : ReadRequest) :
    (req.service = none → (Stats.Read s req).2.1 = specSource s req.past) ∧
    (∀ f, req.service = some f → ∀ snap,
      snap ∈ (Stats.Read s req).2.1 ↔
        snap ∈ specSource s req.past ∧
        (f.name = "" ∨ snap.service.name = f.name) ∧
        (f.version = "" ∨ snap.service.version = f.version)) := by
  constructor
  · intro hnone
    simp [Stats.Read, specSource, hnone]
  · intro f hsvc snap
    simp only [Stats.Read, hsvc, specSource]
    rw [List.mem_filter]
    simp [Bool.and_eq_true, filterPass_iff, and_assoc]

theorem read_filter_semantics_witness :
    snapX ∈ (Stats.Read stX reqX).2.1 ↔
      snapX ∈ specSource stX false ∧
      (fltX.name = "" ∨ snapX.service.name = fltX.name) ∧
      (fltX.version = "" ∨ snapX.service.version = fltX.version) :=
  (read_filter_semantics stX reqX).2 fltX rfl snapX

/-! ## Ring buffer lemmas -/

lemma Put_size (r : RingBuffer) (b : List Snapshot) : (r.Put b).size = r.size := by
  simp only [RingBuffer.Put]
  split <;> rfl

lemma Put_vals (r : RingBuffer) (b : List Snapshot) :
    (r.Put b).vals = (r.vals ++ [b]).drop ((r.vals.length + 1) - r.size) := by
  simp only [RingBuffer.Put]
  split
  next h =>
    simp [List.length_append]
  next h =>
    simp only [List.length_append, List.length_cons, List.length_nil] at h
    have h0 : r.vals.length + 1 - r.size = 0 := by omega
    simp [h0]

lemma Put_length_le (r : RingBuffer) (b : List Snapshot) :
    (r.Put b).vals.length ≤ r.size := by
  rw [Put_vals, List.length_drop, List.length_append]
  simp only [List.length_cons, List.length_nil]
  omega

lemma foldl_Put_vals (bs : List (List Snapshot)) :
    ∀ (r : RingBuffer), r.vals.length ≤ r.size →
      (bs.foldl RingBuffer.Put r).vals =
        (r.vals ++ bs).drop ((r.vals.length + bs.length) - r.size) := by
  induction bs with
  | nil =>
      intro r h
      simp [Nat.sub_eq_zero_of_le h]
  | cons b tl ih =>
      intro r h
      have hlen : (r.Put b).vals.length ≤ (r.Put b).size := by
        rw [Put_size]; exact Put_length_le r b
      rw [List.foldl_cons, ih _ hlen, Put_size, Put_vals, List.length_drop]
      have hd : r.vals.length + 1 - r.size ≤ (r.vals ++ [b]).length := by
        rw [List.length_append]
        simp only [List.length_cons, List.length_nil]
        omega
      rw [← List.drop_append_of_le_length hd, List.drop_drop]
      have hl : (r.vals ++ [b]) ++ tl = r.vals ++ b :: tl := by simp
      rw [hl]
      congr 1
      simp only [List.length_append, List.length_cons, List.length_nil]
      omega

lemma Get_subset (r : RingBuffer) (n : Nat) : r.Get n ⊆ r.vals :=
  List.drop_subset _ r.vals

lemma scrape_ring (call : RegService → Node → Option StatsResponse)
    (clock : RegService → Node → Int) (protocol : String) (s : StatsState) :
    (Stats.scrape call clock protocol s).historicalSnapshots =
      s.historicalSnapshots.Put (Stats.scrape call clock protocol s).snapshots := rfl

lemma runTicks_ring_inv (c : Nat) (ticks : List TickEnv) :
    ∀ (s : StatsState), s.historicalSnapshots.size = c →
      s.historicalSnapshots.vals.length ≤ c →
      (runTicks ticks s).historicalSnapshots.size = c ∧
        (runTicks ticks s).historicalSnapshots.vals.length ≤ c := by
  induction ticks with
  | nil =>
      intro s hs hl
      exact ⟨hs, hl⟩
  | cons t tl ih =>
      intro s hs hl
      have hstep : runTicks (t :: tl) s =
          runTicks tl (Stats.scrape t.call t.clock t.protocol s) := rfl
      rw [hstep]
      apply ih
      · rw [scrape_ring, Put_size, hs]
      · rw [scrape_ring]
        have := Put_length_le s.historicalSnapshots
          (Stats.scrape t.call t.clock t.protocol s).snapshots
        omega

/-! ## C9: history capacity bound and eviction of the oldest batch -/

/-- C9: starting from a ring of the configured window size `c` (as
built by `New`), any sequence of scrape ticks leaves the history
holding at most `c` batches with its capacity unchanged; and after
`c + 1` insertions the oldest inserted batch is no longer retrievable
via `Get`, whatever window is asked for. -/
theorem history_capacity_bound (c : Nat) (ticks : List TickEnv) (s0 : StatsState)
    (h0 : s0.historicalSnapshots = ringNew c) :
    ((runTicks ticks s0).historicalSnapshots.size = c ∧
      (runTicks ticks s0).historicalSnapshots.vals.length ≤ c) ∧
    ∀ (b0 : List Snapshot) (rest : List (List Snapshot)),
      rest.length = c → b0 ∉ rest →
      ∀ n, b0 ∉ ((b0 :: rest).foldl RingBuffer.Put (ringNew c)).Get n := by
  constructor
  · exact runTicks_ring_inv c ticks s0 (by rw [h0]; rfl) (by rw [h0]; exact Nat.zero_le c)
  · intro b0 rest hlen hnot n hmem
    have hvals : ((b0 :: rest).foldl RingBuffer.Put (ringNew c)).vals =
        ((ringNew c).vals ++ (b0 :: rest)).drop
          (((ringNew c).vals.length + (b0 :: rest).length) - (ringNew c).size) := by
      exact foldl_Put_vals (b0 :: rest) (ringNew c) (Nat.zero_le c)
    have hvals2 : ((b0 :: rest).foldl RingBuffer.Put (ringNew c)).vals = rest := by
      rw [hvals]
      simp [ringNew, hlen]
    have : b0 ∈ ((b0 :: rest).foldl RingBuffer.Put (ringNew c)).vals :=
      Get_subset _ n hmem
    rw [hvals2] at this
    exact hnot this

theorem history_capacity_bound_witness :
    ((runTicks [] st0).historicalSnapshots.size = 1 ∧
      (runTicks [] st0).historicalSnapshots.vals.length ≤ 1) ∧
    [snapX] ∉ (([[snapX]] ++ [[]]).foldl RingBuffer.Put (ringNew 1)).Get 10 :=
  ⟨(history_capacity_bound 1 [] st0 rfl).1,
    (history_capacity_bound 1 [] st0 rfl).2 [snapX] [[]] rfl (by decide) 10⟩

/-! ## C5: per-node failures are absorbed, the tick always publishes -/

/-- The batch a scrape tick assembles, as defined by `Stats.scrape`. -/
lemma scrape_snapshots (call : RegService → Node → Option StatsResponse)
    (clock : RegService → Node → Int) (protocol : String) (s : StatsState) :
    (Stats.scrape call clock protocol s).snapshots =
      (eligibleNodes protocol s.cached).filterMap fun p =>
        (call p.1 p.2).map fun rsp => mkSnapshot p.1 p.2 rsp (clock p.1 p.2) := rfl

/-- C5: a failed per-node call contributes no snapshot and is issued
exactly once, so the batch never exceeds the eligible node count; the
tick always completes, swapping its batch in as Current State and
inserting it into History; when every call fails (or no node is
eligible) the published batch is the empty one.  The final conjunct: if
every eligible pair carrying a given service identity fails, no
snapshot with that identity appears in the batch. -/
theorem scrape_failure_tolerance (call : RegService → Node → Option StatsResponse)
    (clock : RegService → Node → Int) (protocol : String) (s : StatsState) :
    ((Stats.scrape call clock protocol s).historicalSnapshots =
        s.historicalSnapshots.Put (Stats.scrape call clock protocol s).snapshots) ∧
    ((Stats.scrape call clock protocol s).snapshots.length ≤
        (eligibleNodes protocol s.cached).length) ∧
    ((∀ p ∈ eligibleNodes protocol s.cached, call p.1 p.2 = none) →
        (Stats.scrape call clock protocol s).snapshots = [] ∧
        (Stats.scrape call clock protocol s).historicalSnapshots =
          s.historicalSnapshots.Put []) ∧
    (eligibleNodes protocol s.cached = [] →
        (Stats.scrape call clock protocol s).snapshots = []) ∧
    (∀ (svc : RegService) (node : Node),
      (∀ p ∈ eligibleNodes protocol s.cached,
          p.1.name = svc.name → p.1.version = svc.version →
          p.2.id = node.id → p.2.address = node.address → call p.1 p.2 = none) →
      ∀ snap ∈ (Stats.scrape call clock protocol s).snapshots,
        snap.service ≠ wireIdentity svc node) := by
  refine ⟨rfl, ?_, ?_, ?_, ?_⟩
  · rw [scrape_snapshots]
    exact List.length_filterMap_le _ _
  · intro hall
    have hempty : (Stats.scrape call clock protocol s).snapshots = [] := by
      rw [scrape_snapshots, List.filterMap_eq_nil_iff]
      intro p hp
      rw [hall p hp]
      rfl
    exact ⟨hempty, by rw [scrape_ring, hempty]⟩
  · intro hnil
    rw [scrape_snapshots, hnil]
    rfl
  · intro svc node hfail snap hsnap hid
    rw [scrape_snapshots, List.mem_filterMap] at hsnap
    obtain ⟨p, hp, hcall⟩ := hsnap
    cases hc : call p.1 p.2 with
    | none => rw [hc] at hcall; exact Option.noConfusion hcall
    | some rsp =>
        rw [hc] at hcall
        have hsnapeq : snap = mkSnapshot p.1 p.2 rsp (clock p.1 p.2) :=
          (Option.some.inj hcall).symm
        have hserv : snap.service = wireIdentity p.1 p.2 := by
          rw [hsnapeq]; rfl
        have heq : wireIdentity svc node = wireIdentity p.1 p.2 := by
          rw [← hid]; exact hserv
        simp only [wireIdentity, SService.mk.injEq, Option.some.injEq,
          SNode.mk.injEq] at heq
        obtain ⟨h1, h2, h3, h4⟩ := heq
        have hnone := hfail p hp h1.symm h2.symm h3.symm h4.symm
        rw [hc] at hnone
        exact Option.noConfusion hnone

theorem scrape_failure_tolerance_witness :
    (Stats.scrape callFail clockW "mucp" stM).snapshots = [] ∧
    (Stats.scrape callFail clockW "mucp" stM).historicalSnapshots =
      stM.historicalSnapshots.Put [] :=
  (scrape_failure_tolerance callFail clockW "mucp" stM).2.2.1 (fun _ _ => rfl)

/-! ## C6: capture timestamp is poller-side, `started` is remote-reported -/

/-- C6: every snapshot of a tick comes from a successful call, its
`timestamp` is the unsigned reinterpretation of the poller's own clock
reading for that call, and its `started` is the signed
reinterpretation of the remote-reported start time; neither field
depends on the other's source (the last two conjuncts). -/
theorem scrape_snapshot_fields (call : RegService → Node → Option StatsResponse)
    (clock : RegService → Node → Int) (protocol : String) (s : StatsState) :
    ∀ snap ∈ (Stats.scrape call clock protocol s).snapshots,
      ∃ svc node rsp,
        (svc, node) ∈ eligibleNodes protocol s.cached ∧
        call svc node = some rsp ∧
        snap = mkSnapshot svc node rsp (clock svc node) ∧
        snap.timestamp = toUInt64 (clock svc node) ∧
        snap.started = toInt64 rsp.started ∧
        (∀ ts2 : Int, (mkSnapshot svc node rsp ts2).started = snap.started) ∧
        (∀ rsp2 : StatsResponse,
          (mkSnapshot svc node rsp2 (clock svc node)).timestamp = snap.timestamp) := by
  intro snap hsnap
  rw [scrape_snapshots, List.mem_filterMap] at hsnap
  obtain ⟨p, hp, hcall⟩ := hsnap
  cases hc : call p.1 p.2 with
  | none => rw [hc] at hcall; exact Option.noConfusion hcall
  | some rsp =>
      rw [hc] at hcall
      have hsnapeq : snap = mkSnapshot p.1 p.2 rsp (clock p.1 p.2) :=
        (Option.some.inj hcall).symm
      refine ⟨p.1, p.2, rsp, ?_, hc, hsnapeq, ?_, ?_, ?_, ?_⟩
      · rw [Prod.mk.eta]; exact hp
      · rw [hsnapeq]; rfl
      · rw [hsnapeq]; rfl
      · intro ts2; rw [hsnapeq]; rfl
      · intro rsp2; rw [hsnapeq]; rfl

theorem scrape_snapshot_fields_witness :
    ∃ svc node rsp,
      (svc, node) ∈ eligibleNodes "mucp" stM.cached ∧
      callOk svc node = some rsp ∧
      mkSnapshot svcM nodeW rspW 100 = mkSnapshot svc node rsp (clockW svc node) ∧
      (mkSnapshot svcM nodeW rspW 100).timestamp = toUInt64 (clockW svc node) ∧
      (mkSnapshot svcM nodeW rspW 100).started = toInt64 rsp.started ∧
      (∀ ts2 : Int,
        (mkSnapshot svc node rsp ts2).started = (mkSnapshot svcM nodeW rspW 100).started) ∧
      (∀ rsp2 : StatsResponse,
        (mkSnapshot svc node rsp2 (clockW svc node)).timestamp =
          (mkSnapshot svcM nodeW rspW 100).timestamp) :=
  scrape_snapshot_fields callOk clockW "mucp" stM (mkSnapshot svcM nodeW rspW 100)
    (by decide)

/-! ## The scan merge map: keys, uniqueness, produced entries -/

lemma any_key_iff (m : List (String × RegService)) (k : String) :
    (m.any fun p => p.1 == k) = true ↔ k ∈ mapKeys m := by
  rw [List.any_eq_true]
  unfold mapKeys
  rw [List.mem_map]
  constructor
  · rintro ⟨p, hp, hpe⟩
    exact ⟨p, hp, beq_iff_eq.mp hpe⟩
  · rintro ⟨p, hp, hpe⟩
    exact ⟨p, hp, beq_iff_eq.mpr hpe⟩

lemma mapKeys_minsert (m : List (String × RegService)) (svc : RegService) :
    mapKeys (minsert m svc) =
      if svcKey svc ∈ mapKeys m then mapKeys m else mapKeys m ++ [svcKey svc] := by
  unfold minsert
  by_cases h : svcKey svc ∈ mapKeys m
  · have hany : (m.any fun p => p.1 == svcKey svc) = true := (any_key_iff m _).mpr h
    rw [if_pos h]
    simp only [hany, if_true]
    unfold mapKeys
    rw [List.map_map]
    apply List.map_congr_left
    intro p _
    by_cases hpk : p.1 = svcKey svc
    · simp [hpk]
    · simp [hpk]
  · have hany : ¬ (m.any fun p => p.1 == svcKey svc) = true := fun hc =>
      h ((any_key_iff m _).mp hc)
    rw [if_neg h]
    simp only [Bool.not_eq_true] at hany
    simp only [hany, Bool.false_eq_true, if_false]
    unfold mapKeys
    rw [List.map_append]
    rfl

lemma mem_mapKeys_minsert (j : String) (m : List (String × RegService)) (svc : RegService) :
    j ∈ mapKeys (minsert m svc) ↔ j ∈ mapKeys m ∨ j = svcKey svc := by
  rw [mapKeys_minsert]
  by_cases h : svcKey svc ∈ mapKeys m
  · rw [if_pos h]
    constructor
    · exact Or.inl
    · rintro (hj | hj)
      · exact hj
      · rw [hj]; exact h
  · rw [if_neg h]
    simp [List.mem_append]

lemma nodup_mapKeys_minsert (m : List (String × RegService)) (svc : RegService)
    (h : (mapKeys m).Nodup) : (mapKeys (minsert m svc)).Nodup := by
  rw [mapKeys_minsert]
  by_cases hmem : svcKey svc ∈ mapKeys m
  · rw [if_pos hmem]; exact h
  · rw [if_neg hmem]
    rw [List.nodup_append]
    refine ⟨h, List.nodup_singleton _, ?_⟩
    intro x hx hxk
    simp only [List.mem_singleton] at hxk
    rw [hxk] at hx
    exact hmem hx

lemma snd_key_minsert (m : List (String × RegService)) (svc : RegService)
    (h : ∀ p ∈ m, p.1 = svcKey p.2) : ∀ p ∈ minsert m svc, p.1 = svcKey p.2 := by
  unfold minsert
  split
  · intro p hp
    rw [List.mem_map] at hp
    obtain ⟨q, hq, hqe⟩ := hp
    by_cases hqk : q.1 = svcKey svc
    · rw [← hqe]; simp [hqk]
    · rw [← hqe]; simp [hqk]; exact h q hq
  · intro p hp
    rw [List.mem_append] at hp
    cases hp with
    | inl hp => exact h p hp
    | inr hp =>
        simp only [List.mem_singleton] at hp
        rw [hp]

lemma mem_mapKeys_foldl_minsert (l : List RegService) :
    ∀ (m : List (String × RegService)) (j : String),
      j ∈ mapKeys (l.foldl minsert m) ↔ j ∈ mapKeys m ∨ ∃ u ∈ l, svcKey u = j := by
  induction l with
  | nil => simp
  | cons t tl ih =>
      intro m j
      rw [List.foldl_cons, ih (minsert m t) j, mem_mapKeys_minsert]
      simp only [List.mem_cons]
      constructor
      · rintro ((hm | he) | ⟨u, hu, hk⟩)
        · exact Or.inl hm
        · exact Or.inr ⟨t, Or.inl rfl, he.symm⟩
        · exact Or.inr ⟨u, Or.inr hu, hk⟩
      · rintro (hm | ⟨u, hu | hu, hk⟩)
        · exact Or.inl (Or.inl hm)
        · exact Or.inl (Or.inr (hu ▸ hk).symm)
        · exact Or.inr ⟨u, hu, hk⟩

lemma nodup_mapKeys_foldl_minsert (l : List RegService) :
    ∀ (m : List (String × RegService)), (mapKeys m).Nodup →
      (mapKeys (l.foldl minsert m)).Nodup := by
  induction l with
  | nil => intro m h; exact h
  | cons t tl ih =>
      intro m h
      exact ih (minsert m t) (nodup_mapKeys_minsert m t h)

lemma snd_key_foldl_minsert (l : List RegService) :
    ∀ (m : List (String × RegService)), (∀ p ∈ m, p.1 = svcKey p.2) →
      ∀ p ∈ l.foldl minsert m, p.1 = svcKey p.2 := by
  induction l with
  | nil => intro m h; exact h
  | cons t tl ih =>
      intro m h
      exact ih (minsert m t) (snd_key_minsert m t h)

lemma mem_mapKeys_scanStep (gs : String → Except String (List RegService))
    (m : List (String × RegService)) (t : RegService) (j : String) :
    j ∈ mapKeys (scanStep gs m t) ↔ j ∈ mapKeys m ∨
      (0 < t.nodes.length ∧ svcKey t = j) ∨
      (t.nodes.length = 0 ∧ ∃ u ∈ okServices (gs t.name), svcKey u = j) := by
  unfold scanStep
  split
  next h =>
    rw [mem_mapKeys_minsert]
    have h0 : ¬ t.nodes.length = 0 := by omega
    constructor
    · rintro (hm | he)
      · exact Or.inl hm
      · exact Or.inr (Or.inl ⟨h, he.symm⟩)
    · rintro (hm | ⟨_, hk⟩ | ⟨hz, _⟩)
      · exact Or.inl hm
      · exact Or.inr hk.symm
      · exact absurd hz h0
  next h =>
    have h0 : t.nodes.length = 0 := by omega
    split
    next e heq =>
      have hok : okServices (gs t.name) = [] := by rw [heq]; rfl
      simp [hok, h0]
    next ns heq =>
      have hok : okServices (gs t.name) = ns := by rw [heq]; rfl
      rw [mem_mapKeys_foldl_minsert]
      simp [hok, h0]

lemma nodup_mapKeys_scanStep (gs : String → Except String (List RegService))
    (m : List (String × RegService)) (t : RegService)
    (h : (mapKeys m).Nodup) : (mapKeys (scanStep gs m t)).Nodup := by
  unfold scanStep
  split
  · exact nodup_mapKeys_minsert m t h
  · split
    · exact h
    · exact nodup_mapKeys_foldl_minsert _ m h

lemma snd_key_scanStep (gs : String → Except String (List RegService))
    (m : List (String × RegService)) (t : RegService)
    (h : ∀ p ∈ m, p.1 = svcKey p.2) : ∀ p ∈ scanStep gs m t, p.1 = svcKey p.2 := by
  unfold scanStep
  split
  · exact snd_key_minsert m t h
  · split
    · exact h
    · exact snd_key_foldl_minsert _ m h

lemma mem_mapKeys_foldl_scanStep (gs : String → Except String (List RegService))
    (l : List RegService) :
    ∀ (m : List (String × RegService)) (j : String),
      j ∈ mapKeys (l.foldl (scanStep gs) m) ↔ j ∈ mapKeys m ∨ scanKeyProduced gs l j := by
  induction l with
  | nil => simp [scanKeyProduced]
  | cons t tl ih =>
      intro m j
      rw [List.foldl_cons, ih (scanStep gs m t) j, mem_mapKeys_scanStep]
      unfold scanKeyProduced
      simp only [List.mem_cons]
      constructor
      · rintro ((hm | hc) | ⟨u, hu, hk⟩)
        · exact Or.inl hm
        · exact Or.inr ⟨t, Or.inl rfl, hc⟩
        · exact Or.inr ⟨u, Or.inr hu, hk⟩
      · rintro (hm | ⟨u, hu | hu, hk⟩)
        · exact Or.inl (Or.inl hm)
        · exact Or.inl (Or.inr (hu ▸ hk))
        · exact Or.inr ⟨u, hu, hk⟩

lemma mem_mapKeys_buildServiceMap (gs : String → Except String (List RegService))
    (l : List RegService) (j : String) :
    j ∈ mapKeys (buildServiceMap gs l) ↔ scanKeyProduced gs l j := by
  unfold buildServiceMap
  rw [mem_mapKeys_foldl_scanStep]
  simp [mapKeys]

lemma nodup_mapKeys_buildServiceMap (gs : String → Except String (List RegService))
    (l : List RegService) : (mapKeys (buildServiceMap gs l)).Nodup := by
  unfold buildServiceMap
  have haux : ∀ (l2 : List RegService) (m : List (String × RegService)),
      (mapKeys m).Nodup → (mapKeys (l2.foldl (scanStep gs) m)).Nodup := by
    intro l2
    induction l2 with
    | nil => intro m h; exact h
    | cons t tl ih =>
        intro m h
        exact ih (scanStep gs m t) (nodup_mapKeys_scanStep gs m t h)
  exact haux l [] (by simp [mapKeys])

lemma snd_key_buildServiceMap (gs : String → Except String (List RegService))
    (l : List RegService) : ∀ p ∈ buildServiceMap gs l, p.1 = svcKey p.2 := by
  unfold buildServiceMap
  have haux : ∀ (l2 : List RegService) (m : List (String × RegService)),
      (∀ p ∈ m, p.1 = svcKey p.2) → ∀ p ∈ l2.foldl (scanStep gs) m, p.1 = svcKey p.2 := by
    intro l2
    induction l2 with
    | nil => intro m h; exact h
    | cons t tl ih =>
        intro m h
        exact ih (scanStep gs m t) (snd_key_scanStep gs m t h)
  exact haux l [] (by simp)

lemma map_svcKey_values (m : List (String × RegService))
    (h : ∀ p ∈ m, p.1 = svcKey p.2) :
    (m.map (fun p => p.2)).map svcKey = mapKeys m := by
  unfold mapKeys
  rw [List.map_map]
  apply List.map_congr_left
  intro p hp
  exact (h p hp).symm

/-! ## C1: the merge is keyed by the concatenated string, not the pair -/

/-- C1 counterexample: `svcP = ("a","bc")` and `svcQ = ("ab","c")` have
distinct `(name, version)` identities, both are listed with nodes, yet
`scan` merges them under the single concatenated key `"abc"`: the
refreshed directory holds one entry and `svcP` has been collapsed away. -/
theorem scan_collapses_distinct_identities :
    (svcP.name, svcP.version) ≠ (svcQ.name, svcQ.version) ∧
    regC1.listServices = Except.ok [svcP, svcQ] ∧
    (Stats.scan regC1 st0).2 = none ∧
    (Stats.scan regC1 st0).1.cached.length = 1 ∧
    svcP ∉ (Stats.scan regC1 st0).1.cached := by
  refine ⟨by decide, rfl, rfl, by decide, by decide⟩

/-- C1 (amended): after a successful scan the directory has pairwise
distinct concatenated keys `name ++ version` — hence the same
`(name, version)` identity never appears twice — but distinct
identities whose concatenations coincide are collapsed into one entry. -/
theorem scan_directory_key_nodup (reg : RegistryView) (s : StatsState)
    (l : List RegService) (h : reg.listServices = Except.ok l) :
    (((Stats.scan reg s).1.cached).map svcKey).Nodup ∧
    (((Stats.scan reg s).1.cached).map (fun svc => (svc.name, svc.version))).Nodup := by
  have hcached : (Stats.scan reg s).1.cached =
      (buildServiceMap reg.getService l).map (fun p => p.2) := by
    simp [Stats.scan, h]
  have hkeys : (((Stats.scan reg s).1.cached).map svcKey).Nodup := by
    rw [hcached, map_svcKey_values _ (snd_key_buildServiceMap _ _)]
    exact nodup_mapKeys_buildServiceMap _ _
  refine ⟨hkeys, ?_⟩
  have h1 : ((Stats.scan reg s).1.cached).Pairwise (fun a b => svcKey a ≠ svcKey b) :=
    List.pairwise_map.mp hkeys
  have h2 : ((Stats.scan reg s).1.cached).Pairwise
      (fun a b => (a.name, a.version) ≠ (b.name, b.version)) := by
    refine h1.imp ?_
    intro a b hne hpq
    apply hne
    have hn : a.name = b.name := congrArg Prod.fst hpq
    have hv : a.version = b.version := congrArg Prod.snd hpq
    unfold svcKey
    rw [hn, hv]
  exact List.pairwise_map.mpr h2

theorem scan_directory_key_nodup_witness :
    (((Stats.scan regC1 st0).1.cached).map svcKey).Nodup ∧
    (((Stats.scan regC1 st0).1.cached).map (fun svc => (svc.name, svc.version))).Nodup :=
  scan_directory_key_nodup regC1 st0 [svcP, svcQ] rfl

/-! ## C10: a failed follow-up lookup silently omits the service -/

/-- C10: when `ListServices` succeeds but the follow-up `GetService`
for a node-less listed service fails (and no other listed entry
produces its key), that service is silently omitted from the refreshed
directory, which is rebuilt from scratch — independent of the
previously cached list — and the refresh still reports success. -/
theorem scan_get_failure_omits_service (reg : RegistryView) (s : StatsState)
    (l : List RegService) (svc : RegService) (e : String)
    (hls : reg.listServices = Except.ok l) (_hmem : svc ∈ l) (_hnodes : svc.nodes = [])
    (_hget : reg.getService svc.name = Except.error e)
    (hunique : ¬ scanKeyProduced reg.getService l (svcKey svc)) :
    (Stats.scan reg s).2 = none ∧
    svc ∉ (Stats.scan reg s).1.cached ∧
    svcKey svc ∉ ((Stats.scan reg s).1.cached).map svcKey ∧
    ∀ s2 : StatsState, (Stats.scan reg s2).1.cached = (Stats.scan reg s).1.cached := by
  have hcached : ∀ s3 : StatsState, (Stats.scan reg s3).1.cached =
      (buildServiceMap reg.getService l).map (fun p => p.2) := by
    intro s3
    simp [Stats.scan, hls]
  have hkey : svcKey svc ∉ ((Stats.scan reg s).1.cached).map svcKey := by
    rw [hcached s, map_svcKey_values _ (snd_key_buildServiceMap _ _)]
    intro hc
    exact hunique ((mem_mapKeys_buildServiceMap _ _ _).mp hc)
  refine ⟨by simp [Stats.scan, hls], ?_, hkey, ?_⟩
  · intro hc
    exact hkey (List.mem_map.mpr ⟨svc, hc, rfl⟩)
  · intro s2
    rw [hcached s2, hcached s]

theorem scan_get_failure_omits_service_witness :
    (Stats.scan regGhost st0).2 = none ∧
    svcGhost ∉ (Stats.scan regGhost st0).1.cached ∧
    svcKey svcGhost ∉ ((Stats.scan regGhost st0).1.cached).map svcKey ∧
    (Stats.scan regGhost stX).1.cached = (Stats.scan regGhost st0).1.cached := by
  have h := scan_get_failure_omits_service regGhost st0 [svcGhost, svcM] svcGhost "down"
    rfl (by decide) rfl rfl (by unfold scanKeyProduced; decide)
  exact ⟨h.1, h.2.1, h.2.2.1, h.2.2.2 stX⟩
